import Mathlib

/-!
# Peer-recognition credit platform: shallow embedding and verification

This file embeds the ledger-and-quota accounting engine of the peer-recognition
credit platform (`src/app/models` and `src/app/services`) as executable Lean
definitions, and settles the specification claims about it.

Modelling conventions:
* Student ids are opaque (`Nat` stands for the UUIDs of the source).
* Month buckets (first-of-month dates in the source) are represented by a
  linear month index `Nat`; `previous_month_bucket` is predecessor.
* `reset_at` timestamps are represented by the month index of the timestamp;
  the source comparison `reset_at.date() >= current_bucket` holds exactly when
  the month of `reset_at` is at least the bucket's month.
* Each service call runs in one transaction; a raised rule violation makes the
  caller roll back, so a service returning `.error` leaves the committed state
  unchanged.  Rule-violation messages that report a number are embedded as
  structured error constructors carrying the number the source interpolates.
-/

/-- Ledger event classification (`models/credit_ledger.py`, `CreditEventType`). -/
inductive CreditEventType where
  | RECOGNITION_SENT
  | RECOGNITION_RECEIVED
  | REDEMPTION
  | MONTHLY_RESET
  | CARRY_FORWARD
  | CARRY_FORWARD_EXPIRED
deriving DecidableEq

abbrev StudentId := Nat

abbrev Month := Nat

/-- One immutable ledger row (`models/credit_ledger.py`, `CreditLedger`). -/
structure CreditLedgerEntry where
  student_id : StudentId
  event_type : CreditEventType
  credits_delta : Int
  month_bucket : Month
  related_recognition : Option Nat := none
  related_redemption : Option Nat := none
deriving DecidableEq

/-- Per-student-per-month quota row (`models/monthly_quota.py`, `MonthlyQuota`). -/
structure MonthlyQuota where
  student_id : StudentId
  month_bucket : Month
  credits_sent : Int := 0
  send_limit : Int := 100
  carry_forward_applied : Bool := false
  carry_forward_credits : Int := 0
  reset_at : Option Month := none
deriving DecidableEq

/-- A recognition row (`models/recognition.py`).  Ids are assigned sequentially
by insertion order, standing for the generated UUID primary keys. -/
structure Recognition where
  recognition_id : Nat
  sender_id : StudentId
  receiver_id : StudentId
  credits_transferred : Int
  month_bucket : Month
  endorsement_count : Int := 0
deriving DecidableEq

/-- An endorsement row (`models/recognition_endorsement.py`). -/
structure RecognitionEndorsement where
  recognition_id : Nat
  endorser_id : StudentId
deriving DecidableEq

/-- Redemption status (`models/redemption.py`, `RedemptionStatus`). -/
inductive RedemptionStatus where
  | PENDING
  | ISSUED
  | FAILED
  | CANCELLED
deriving DecidableEq

/-- A redemption row (`models/redemption.py`).  `voucher_value` is the stored
computed column `credits_redeemed * 5`. -/
structure Redemption where
  redemption_id : Nat
  student_id : StudentId
  credits_redeemed : Int
  voucher_value : Int
  status : RedemptionStatus
deriving DecidableEq

/-- The persistent store: the students table plus the four mutable tables the
engines write (ledger, quota, recognitions + endorsements, redemptions). -/
structure EngineState where
  students : List StudentId
  ledger : List CreditLedgerEntry
  quotas : List MonthlyQuota
  recognitions : List Recognition
  endorsements : List RecognitionEndorsement
  redemptions : List Redemption
deriving DecidableEq

/-- Initial state: enrolled students, empty ledger and tables. -/
def EngineState.init (students : List StudentId) : EngineState :=
  { students := students, ledger := [], quotas := [], recognitions := [],
    endorsements := [], redemptions := [] }

/-- Sum of `credits_delta` over the ledger rows satisfying a filter
(the `func.sum(...)`/`coalesce(...,0)` aggregation pattern of the services). -/
def ledgerSum (p : CreditLedgerEntry → Bool) : List CreditLedgerEntry → Int
  | [] => 0
  | e :: rest => (if p e then e.credits_delta else 0) + ledgerSum p rest

/-- Key match for the `(student_id, month_bucket)` unique constraint on
`monthly_quota`. -/
def quotaKeyMatches (sid : StudentId) (bucket : Month) (q : MonthlyQuota) : Bool :=
  decide (q.student_id = sid ∧ q.month_bucket = bucket)

/-- Look up the quota row of a `(student, month)` pair. -/
def findQuota (qs : List MonthlyQuota) (sid : StudentId) (bucket : Month) :
    Option MonthlyQuota :=
  qs.find? (quotaKeyMatches sid bucket)

/-- Write back a quota row: replace the row with the same
`(student_id, month_bucket)` key, or insert it if absent.  Models both the ORM
mutation of a fetched row and `session.add` of a fresh one. -/
def upsertQuota (qs : List MonthlyQuota) (q : MonthlyQuota) : List MonthlyQuota :=
  if qs.any (quotaKeyMatches q.student_id q.month_bucket) then
    qs.map (fun r => if quotaKeyMatches q.student_id q.month_bucket r then q else r)
  else qs ++ [q]

/-- Freshly created quota row with the model defaults
(`credits_sent=0, send_limit=100, carry_forward_credits=0`). -/
def defaultQuota (sid : StudentId) (bucket : Month) : MonthlyQuota :=
  { student_id := sid, month_bucket := bucket }

/-- Embeds `_current_balance` (`services/recognition_service.py`): unfiltered sum of a
student's ledger deltas. -/
def current_balance (s : EngineState) (sid : StudentId) : Int :=
  ledgerSum (fun e => decide (e.student_id = sid)) s.ledger

/-- Embeds `_ensure_monthly_context` (`services/recognition_service.py`): fetch or
lazily create the `(student, month)` quota row, and seed the baseline
`MONTHLY_RESET` (+100) ledger entry for that month if it is absent.  Returns
the updated state together with the quota row the caller holds. -/
def ensure_monthly_context (s : EngineState) (sid : StudentId) (bucket : Month) :
    EngineState × MonthlyQuota :=
  let found := findQuota s.quotas sid bucket
  let quota := found.getD (defaultQuota sid bucket)
  let s1 : EngineState :=
    match found with
    | some _ => s
    | none => { s with quotas := s.quotas ++ [defaultQuota sid bucket] }
  let resetExists := s1.ledger.any fun e =>
    decide (e.student_id = sid ∧ e.month_bucket = bucket ∧
      e.event_type = CreditEventType.MONTHLY_RESET)
  if resetExists then (s1, quota)
  else
    ({ s1 with ledger := s1.ledger ++
        [{ student_id := sid, event_type := CreditEventType.MONTHLY_RESET,
           credits_delta := 100, month_bucket := bucket }] }, quota)

/-- The rule violations `create_recognition` raises
(`RecognitionRuleViolation`), with the datum each message interpolates. -/
inductive RecognitionError where
  | selfRecognition
  | studentNotFound (student_id : StudentId)
  | capExceeded (remaining : Int)
  | insufficientBalance
deriving DecidableEq

/-- Embeds `create_recognition` (`services/recognition_service.py`).  The `bucket`
argument is the month of `datetime.now` in the source.  An `.error` result
models the raised violation: the HTTP layer rolls the transaction back, so no
state is committed. -/
def create_recognition (s : EngineState) (sender_id receiver_id : StudentId)
    (credits_transferred : Int) (bucket : Month) :
    Except RecognitionError (EngineState × Recognition) :=
  if sender_id = receiver_id then
    .error .selfRecognition
  else if sender_id ∉ s.students then
    .error (.studentNotFound sender_id)
  else if receiver_id ∉ s.students then
    .error (.studentNotFound receiver_id)
  else
    let res1 := ensure_monthly_context s sender_id bucket
    let sender_quota := res1.2
    let s2 := (ensure_monthly_context res1.1 receiver_id bucket).1
    if sender_quota.credits_sent + credits_transferred > sender_quota.send_limit then
      .error (.capExceeded (max (sender_quota.send_limit - sender_quota.credits_sent) 0))
    else if current_balance s2 sender_id < credits_transferred then
      .error .insufficientBalance
    else
      let newId := s2.recognitions.length
      let recognition : Recognition :=
        { recognition_id := newId, sender_id := sender_id, receiver_id := receiver_id,
          credits_transferred := credits_transferred, month_bucket := bucket,
          endorsement_count := 0 }
      .ok ({ s2 with
              recognitions := s2.recognitions ++ [recognition],
              quotas := upsertQuota s2.quotas
                { sender_quota with
                    credits_sent := sender_quota.credits_sent + credits_transferred },
              ledger := s2.ledger ++
                [{ student_id := sender_id, related_recognition := some newId,
                   event_type := CreditEventType.RECOGNITION_SENT,
                   credits_delta := -credits_transferred, month_bucket := bucket },
                 { student_id := receiver_id, related_recognition := some newId,
                   event_type := CreditEventType.RECOGNITION_RECEIVED,
                   credits_delta := credits_transferred, month_bucket := bucket }] },
            recognition)

/-- The rule violations `create_endorsement` raises (`EndorsementRuleViolation`). -/
inductive EndorsementError where
  | recognitionNotFound (recognition_id : Nat)
  | studentNotFound (student_id : StudentId)
  | alreadyEndorsed
deriving DecidableEq

/-- Embeds `create_endorsement` (`services/endorsement_service.py`): resolve the
recognition and the endorser, reject a duplicate `(recognition, endorser)`
pair, insert the endorsement row and increment the recognition's denormalized
`endorsement_count` in the same transaction. -/
def create_endorsement (s : EngineState) (recognition_id : Nat)
    (endorser_id : StudentId) :
    Except EndorsementError (EngineState × RecognitionEndorsement) :=
  match s.recognitions.find? (fun r => decide (r.recognition_id = recognition_id)) with
  | none => .error (.recognitionNotFound recognition_id)
  | some recognition =>
    if endorser_id ∉ s.students then
      .error (.studentNotFound endorser_id)
    else if s.endorsements.any (fun e =>
        decide (e.recognition_id = recognition.recognition_id ∧
          e.endorser_id = endorser_id)) then
      .error .alreadyEndorsed
    else
      let endorsement : RecognitionEndorsement :=
        { recognition_id := recognition.recognition_id, endorser_id := endorser_id }
      .ok ({ s with
              endorsements := s.endorsements ++ [endorsement],
              recognitions := s.recognitions.map fun r =>
                if decide (r.recognition_id = recognition.recognition_id) then
                  { r with endorsement_count := r.endorsement_count + 1 }
                else r },
            endorsement)

/-- The rule violations `redeem` raises (`RedemptionRuleViolation`), with the
datum each message interpolates. -/
inductive RedemptionError where
  | studentNotFound (student_id : StudentId)
  | noRedeemableCredits
  | exceedsRedeemable (redeemable : Int)
deriving DecidableEq

/-- Embeds `_redeemable_balance` (`services/redemption_service.py`): sum of the
student's `RECOGNITION_RECEIVED` and `CARRY_FORWARD` deltas plus the sum of
their `REDEMPTION` and `CARRY_FORWARD_EXPIRED` deltas. -/
def redeemable_balance (s : EngineState) (sid : StudentId) : Int :=
  let received_total := ledgerSum (fun e =>
    decide (e.student_id = sid ∧
      (e.event_type = CreditEventType.RECOGNITION_RECEIVED ∨
        e.event_type = CreditEventType.CARRY_FORWARD))) s.ledger
  let redeemed_total := ledgerSum (fun e =>
    decide (e.student_id = sid ∧
      (e.event_type = CreditEventType.REDEMPTION ∨
        e.event_type = CreditEventType.CARRY_FORWARD_EXPIRED))) s.ledger
  received_total + redeemed_total

/-- Embeds `redeem` (`services/redemption_service.py`): resolve the student, check the
redeemable balance, then insert the `ISSUED` redemption (voucher value is the
computed column `credits_redeemed * 5`) and its single `REDEMPTION` ledger
entry; returns the redemption and the remaining redeemable balance. -/
def redeem (s : EngineState) (student_id : StudentId) (credits_redeemed : Int)
    (bucket : Month) :
    Except RedemptionError (EngineState × Redemption × Int) :=
  if student_id ∉ s.students then
    .error (.studentNotFound student_id)
  else
    let redeemable := redeemable_balance s student_id
    if redeemable ≤ 0 then
      .error .noRedeemableCredits
    else if credits_redeemed > redeemable then
      .error (.exceedsRedeemable redeemable)
    else
      let newId := s.redemptions.length
      let redemption : Redemption :=
        { redemption_id := newId, student_id := student_id,
          credits_redeemed := credits_redeemed,
          voucher_value := credits_redeemed * 5, status := RedemptionStatus.ISSUED }
      .ok ({ s with
              redemptions := s.redemptions ++ [redemption],
              ledger := s.ledger ++
                [{ student_id := student_id, related_redemption := some newId,
                   event_type := CreditEventType.REDEMPTION,
                   credits_delta := -credits_redeemed, month_bucket := bucket }] },
            redemption, redeemable - credits_redeemed)

/-- Summary dictionary returned by `run_monthly_reset`. -/
structure ResetSummary where
  students_processed : Nat
  carry_forward_total : Int
  expired_total : Int
deriving DecidableEq

/-- Embeds `previous_month_bucket` (`utils/datetime.py`) on month indices. -/
def previous_month_bucket (bucket : Month) : Month := bucket - 1

/-- The idempotency check of `run_monthly_reset`: skip the student when the
current month's quota row exists and its `reset_at` is set and dated on/after
the current bucket. -/
def monthlyResetSkip (s : EngineState) (sid : StudentId) (bucket : Month) : Bool :=
  match findQuota s.quotas sid bucket with
  | some q =>
    match q.reset_at with
    | some m => decide (bucket ≤ m)
    | none => false
  | none => false

/-- Abbreviation for the baseline +100 `MONTHLY_RESET` ledger row both seeding
paths insert. -/
def monthlyResetEntry (sid : StudentId) (bucket : Month) : CreditLedgerEntry :=
  { student_id := sid, event_type := CreditEventType.MONTHLY_RESET,
    credits_delta := 100, month_bucket := bucket }

/-- Unused-credit aggregation of `run_monthly_reset`: sum of the student's
prior-month ledger deltas restricted to `MONTHLY_RESET`, `CARRY_FORWARD` and
`RECOGNITION_SENT`. -/
def resetUnusedRaw (s : EngineState) (sid : StudentId) (bucket : Month) : Int :=
  ledgerSum (fun e =>
    decide (e.student_id = sid ∧
      e.month_bucket = previous_month_bucket bucket ∧
      (e.event_type = CreditEventType.MONTHLY_RESET ∨
        e.event_type = CreditEventType.CARRY_FORWARD ∨
        e.event_type = CreditEventType.RECOGNITION_SENT))) s.ledger

/-- Unused credits floored at zero (`if unused < 0: unused = 0`). -/
def resetUnused (s : EngineState) (sid : StudentId) (bucket : Month) : Int :=
  if resetUnusedRaw s sid bucket < 0 then 0 else resetUnusedRaw s sid bucket

/-- Mark the previous month's quota row `carry_forward_applied` when it
exists. -/
def markPriorQuota (s : EngineState) (sid : StudentId) (bucket : Month) :
    List MonthlyQuota :=
  match findQuota s.quotas sid (previous_month_bucket bucket) with
  | some pq => upsertQuota s.quotas { pq with carry_forward_applied := true }
  | none => s.quotas

/-- The rewritten current-month quota row the job stores: cap restored, usage
zeroed, carry-forward recorded, `reset_at` stamped. -/
def resetQuotaRow (s : EngineState) (sid : StudentId) (bucket : Month) :
    MonthlyQuota :=
  let base := (findQuota (markPriorQuota s sid bucket) sid bucket).getD
    (defaultQuota sid bucket)
  { base with
      send_limit := 100, credits_sent := 0,
      carry_forward_credits := min (resetUnused s sid bucket) 50,
      carry_forward_applied := decide (min (resetUnused s sid bucket) 50 > 0),
      reset_at := some bucket }

/-- Baseline `MONTHLY_RESET` entry the job seeds when the current month has
none yet. -/
def resetSeedEntries (s : EngineState) (sid : StudentId) (bucket : Month) :
    List CreditLedgerEntry :=
  if s.ledger.any (fun e =>
      decide (e.student_id = sid ∧ e.month_bucket = bucket ∧
        e.event_type = CreditEventType.MONTHLY_RESET)) then []
  else [monthlyResetEntry sid bucket]

/-- The `CARRY_FORWARD_EXPIRED` entry debiting the whole unused amount,
inserted exactly when `unused > 0`. -/
def resetExpiredEntries (s : EngineState) (sid : StudentId) (bucket : Month) :
    List CreditLedgerEntry :=
  if resetUnused s sid bucket > 0 then
    [{ student_id := sid, event_type := CreditEventType.CARRY_FORWARD_EXPIRED,
       credits_delta := -(resetUnused s sid bucket), month_bucket := bucket }]
  else []

/-- The `CARRY_FORWARD` entry crediting the capped carry-forward back,
inserted exactly when `carry_forward > 0`. -/
def resetCarryEntries (s : EngineState) (sid : StudentId) (bucket : Month) :
    List CreditLedgerEntry :=
  if min (resetUnused s sid bucket) 50 > 0 then
    [{ student_id := sid, event_type := CreditEventType.CARRY_FORWARD,
       credits_delta := min (resetUnused s sid bucket) 50,
       month_bucket := bucket }]
  else []

/-- The per-student body of the loop in `run_monthly_reset`
(`services/monthly_reset_service.py`): idempotency check, unused-credit
computation over the prior month, quota rewrite, baseline seeding, and the
expiry / carry-forward ledger entries, threading the summary accumulator. -/
def reset_student_step (bucket : Month) (acc : EngineState × ResetSummary)
    (sid : StudentId) : EngineState × ResetSummary :=
  let s := acc.1
  if monthlyResetSkip s sid bucket then acc
  else
    let unused := resetUnused s sid bucket
    let carry_forward := min unused 50
    let expired_amount := unused - carry_forward
    ({ s with
         quotas := upsertQuota (markPriorQuota s sid bucket)
           (resetQuotaRow s sid bucket),
         ledger := s.ledger ++ resetSeedEntries s sid bucket ++
           resetExpiredEntries s sid bucket ++ resetCarryEntries s sid bucket },
     { students_processed := acc.2.students_processed + 1,
       carry_forward_total := acc.2.carry_forward_total + carry_forward,
       expired_total := acc.2.expired_total + expired_amount })

/-- Embeds `run_monthly_reset` (`services/monthly_reset_service.py`): loop the
per-student reset over every student, returning the new state and the summary.
`bucket` is the month of `current_time` in the source. -/
def run_monthly_reset (s : EngineState) (bucket : Month) :
    EngineState × ResetSummary :=
  s.students.foldl (reset_student_step bucket)
    (s, { students_processed := 0, carry_forward_total := 0, expired_total := 0 })

/-- Loop of `_execute_monthly_reset` (`jobs/monthly_reset.py`) with a
storage-failure oracle: processing the students one by one in a single shared
session, a failure on any student raises out of `run_monthly_reset`. -/
def resetSessionGo (bucket : Month) (failsOn : StudentId → Bool)
    (acc : EngineState × ResetSummary) :
    List StudentId → Except Unit (EngineState × ResetSummary)
  | [] => .ok acc
  | sid :: rest =>
    if failsOn sid then .error ()
    else resetSessionGo bucket failsOn (reset_student_step bucket acc sid) rest

/-- Embeds `_execute_monthly_reset` (`jobs/monthly_reset.py`): the whole batch runs in
one session; `failsOn` marks students whose processing hits a storage failure.
On success the session commits the final state; on any failure the exception
propagates, `session.rollback()` discards every student's updates, and the
committed state stays as it was before the job ran. -/
def run_monthly_reset_session (s : EngineState) (bucket : Month)
    (failsOn : StudentId → Bool) : Except Unit (EngineState × ResetSummary) :=
  resetSessionGo bucket failsOn
    (s, { students_processed := 0, carry_forward_total := 0, expired_total := 0 })
    s.students

/-- One result row of the leaderboard query (`services/leaderboard_service.py`):
the student with the aggregated credits received, recognition count and
endorsement total. -/
structure LeaderboardRow where
  student_id : StudentId
  total_credits : Int
  recognition_count : Nat
  endorsement_count : Int
deriving DecidableEq

/-- The per-student aggregation of the outer join in `top_recipients`: sum and
count of the recognitions received by that student. -/
def leaderboardRow (s : EngineState) (sid : StudentId) : LeaderboardRow :=
  let received := s.recognitions.filter (fun r => decide (r.receiver_id = sid))
  { student_id := sid,
    total_credits := (received.map (fun r => r.credits_transferred)).sum,
    recognition_count := received.length,
    endorsement_count := (received.map (fun r => r.endorsement_count)).sum }

/-- The ordering of the leaderboard query: `total_credits` descending, ties by
`student_id` ascending. -/
def leaderboardOrder (a b : LeaderboardRow) : Prop :=
  b.total_credits < a.total_credits ∨
    (a.total_credits = b.total_credits ∧ a.student_id ≤ b.student_id)

instance : DecidableRel leaderboardOrder := fun a b => by
  unfold leaderboardOrder; exact inferInstance

instance : IsTotal LeaderboardRow leaderboardOrder where
  total a b := by
    unfold leaderboardOrder
    rcases lt_trichotomy a.total_credits b.total_credits with h | h | h
    · exact Or.inr (Or.inl h)
    · rcases Nat.le_total a.student_id b.student_id with h2 | h2
      · exact Or.inl (Or.inr ⟨h, h2⟩)
      · exact Or.inr (Or.inr ⟨h.symm, h2⟩)
    · exact Or.inl (Or.inl h)

instance : IsTrans LeaderboardRow leaderboardOrder where
  trans a b c hab hbc := by
    unfold leaderboardOrder at *
    rcases hab with h1 | ⟨h1, h1'⟩ <;> rcases hbc with h2 | ⟨h2, h2'⟩
    · exact Or.inl (h2.trans h1)
    · exact Or.inl (h2 ▸ h1)
    · exact Or.inl (h1 ▸ h2)
    · exact Or.inr ⟨h1.trans h2, h1'.trans h2'⟩

/-- Embeds `top_recipients` (`services/leaderboard_service.py`): clamp the limit into
`[1, 100]`, aggregate one row per student, order by credits received
descending with ties by student id ascending, and truncate to the limit. -/
def top_recipients (s : EngineState) (limit : Nat) : List LeaderboardRow :=
  (List.insertionSort leaderboardOrder (s.students.map (leaderboardRow s))).take
    (max 1 (min limit 100))

/-- The logical write operations a caller can invoke on the core engines.
`redeemOp` / `runMonthlyResetOp` are `Redeem` / `RunMonthlyReset` of the
interface. -/
inductive EngineOp where
  | createRecognition (sender_id receiver_id : StudentId) (credits : Int)
      (bucket : Month)
  | createEndorsement (recognition_id : Nat) (endorser_id : StudentId)
  | redeemOp (student_id : StudentId) (credits : Int) (bucket : Month)
  | runMonthlyResetOp (bucket : Month)

/-- Committed effect of one operation: the new state on commit, the unchanged
state when the engine raised a violation (the transaction is rolled back). -/
def applyOp (s : EngineState) : EngineOp → EngineState
  | .createRecognition a b c m =>
    match create_recognition s a b c m with
    | .ok r => r.1
    | .error _ => s
  | .createEndorsement rid eid =>
    match create_endorsement s rid eid with
    | .ok r => r.1
    | .error _ => s
  | .redeemOp sid c m =>
    match redeem s sid c m with
    | .ok r => r.1
    | .error _ => s
  | .runMonthlyResetOp m => (run_monthly_reset s m).1

/-- Interface preconditions enforced by the request schemas: recognition
credits lie in 1..100 (`RecognitionCreate`), redeemed credits are positive
(`RedemptionCreate`). -/
def EngineOp.valid : EngineOp → Prop
  | .createRecognition _ _ c _ => 1 ≤ c ∧ c ≤ 100
  | .createEndorsement _ _ => True
  | .redeemOp _ c _ => 1 ≤ c
  | .runMonthlyResetOp _ => True

instance : ∀ op : EngineOp, Decidable op.valid := by
  intro op; cases op <;> (unfold EngineOp.valid; exact inferInstance)

/-- States reachable from an initial empty-ledger state by any sequence of
engine operations satisfying the interface preconditions. -/
inductive Reachable : EngineState → Prop where
  | init (students : List StudentId) : Reachable (EngineState.init students)
  | step {s : EngineState} (op : EngineOp) : Reachable s → op.valid →
      Reachable (applyOp s op)

/-! ## Claim C1: a reachable state with a negative total balance

Students 0 and 1, all operations in the same month (index 5).  Student 1 sends
60 to student 0; student 0 sends 100 to student 1 (cap reached, balance 160);
the monthly reset job runs mid-month — student 0's current-month quota row
exists with a null `reset_at`, so the job is not skipped and rewrites
`credits_sent` to 0; student 0 sends another 60 (cap check passes against the
rewritten quota, balance check passes with balance 60); student 0 then redeems
the 60 received credits, which only the redeemable-kind balance guards.  The
total balance of student 0 ends at -60. -/

def negBal0 : EngineState := EngineState.init [0, 1]

def negBal1 : EngineState := applyOp negBal0 (.createRecognition 1 0 60 5)

def negBal2 : EngineState := applyOp negBal1 (.createRecognition 0 1 100 5)

def negBal3 : EngineState := applyOp negBal2 (.runMonthlyResetOp 5)

def negBal4 : EngineState := applyOp negBal3 (.createRecognition 0 1 60 5)

def negBal5 : EngineState := applyOp negBal4 (.redeemOp 0 60 5)

/-! ## Claim C7: a storage failure on one student aborts the whole batch -/

/-- Starting state for the batch-failure scenario: two enrolled students,
empty ledger and quota tables. -/
def faultStart : EngineState := EngineState.init [0, 1]

/-- Failure oracle: processing student 0 hits a storage failure. -/
def failsOnZero : StudentId → Bool := fun sid => sid == 0

/-- Sign discipline fixed by the event kind: the `credit_ledger_delta_sign`
check constraint of `models/credit_ledger.py` (debit kinds strictly negative,
credit kinds strictly positive). -/
def signOk (e : CreditLedgerEntry) : Prop :=
  match e.event_type with
  | CreditEventType.RECOGNITION_SENT => e.credits_delta < 0
  | CreditEventType.REDEMPTION => e.credits_delta < 0
  | CreditEventType.CARRY_FORWARD_EXPIRED => e.credits_delta < 0
  | CreditEventType.RECOGNITION_RECEIVED => 0 < e.credits_delta
  | CreditEventType.MONTHLY_RESET => 0 < e.credits_delta
  | CreditEventType.CARRY_FORWARD => 0 < e.credits_delta

/-- Quota row the sender holds after `_ensure_monthly_context`: the stored row
for the `(student, month)` pair, or a fresh default row when none exists. -/
def effectiveQuota (s : EngineState) (sid : StudentId) (m : Month) :
    MonthlyQuota :=
  (findQuota s.quotas sid m).getD (defaultQuota sid m)

/-- Post-state of the per-student monthly reset on a `(student, month)` quota
row: usage zeroed, cap restored, `reset_at` stamped in the current bucket. -/
def quotaResetDone (st : EngineState) (sid : StudentId) (bucket : Month) :
    Prop :=
  ∃ q, findQuota st.quotas sid bucket = some q ∧ q.credits_sent = 0 ∧
    q.send_limit = 100 ∧ 0 ≤ q.carry_forward_credits ∧
    q.carry_forward_credits ≤ 50 ∧ q.reset_at = some bucket

/-- Uniqueness of `(recognition_id, endorser_id)` over the endorsement rows:
the `recognition_endorsements_unique` constraint. -/
def endorsementPairsUnique (s : EngineState) : Prop :=
  List.Pairwise (fun a b => ¬(a.recognition_id = b.recognition_id ∧
    a.endorser_id = b.endorser_id)) s.endorsements

/-- Consistency of every recognition's denormalized `endorsement_count` with
the number of endorsement rows that reference it. -/
def endorsementCountsOk (s : EngineState) : Prop :=
  ∀ r ∈ s.recognitions, r.endorsement_count =
    ((s.endorsements.filter (fun e =>
      decide (e.recognition_id = r.recognition_id))).length : Int)

/-- Auxiliary invariant for the endorsement claims: recognition ids are the
insertion indices (so they are distinct and fresh ids never collide), every
endorsement references an existing recognition, and every endorser is an
enrolled student. -/
def endorsementAux (s : EngineState) : Prop :=
  (s.recognitions.map (fun r => r.recognition_id) =
    List.range s.recognitions.length) ∧
  (∀ e ∈ s.endorsements,
    (∃ r ∈ s.recognitions, r.recognition_id = e.recognition_id) ∧
    e.endorser_id ∈ s.students)

/-- Demonstration input for the monthly-reset computation: one student whose
prior month (bucket 1) holds the baseline +100 and a 30-credit send, so the
unused allowance is 70. -/
def resetDemo : EngineState × ResetSummary :=
  ({ EngineState.init [0] with ledger :=
      [{ student_id := 0, event_type := CreditEventType.MONTHLY_RESET,
         credits_delta := 100, month_bucket := 1 },
       { student_id := 0, event_type := CreditEventType.RECOGNITION_SENT,
         credits_delta := -30, month_bucket := 1 }] },
   { students_processed := 0, carry_forward_total := 0, expired_total := 0 })

/-- Demonstration input for the lazy-quota erasure behavior: student 0's
current-month (bucket 1) quota row was created lazily on the write path
(`reset_at` null) and records 77 credits already sent. -/
def lazyQuotaDemo : EngineState :=
  { EngineState.init [0] with quotas :=
      [{ student_id := 0, month_bucket := 1, credits_sent := 77,
         send_limit := 100, carry_forward_applied := false,
         carry_forward_credits := 0, reset_at := none }] }

/-- Demonstration input for redemption: one student holding 40 received
credits. -/
def redeemDemo : EngineState :=
  { EngineState.init [0] with ledger :=
      [{ student_id := 0, event_type := CreditEventType.RECOGNITION_RECEIVED,
         credits_delta := 40, month_bucket := 1 }] }

/-- The redemption issued by redeeming those 40 credits. -/
def issued40 : Redemption :=
  { redemption_id := 0, student_id := 0, credits_redeemed := 40,
    voucher_value := 200, status := RedemptionStatus.ISSUED }

/-- Committed state after the 40-credit redemption. -/
def redeemAfter : EngineState :=
  { redeemDemo with
      redemptions := [issued40],
      ledger := redeemDemo.ledger ++
        [{ student_id := 0, related_redemption := some 0,
           event_type := CreditEventType.REDEMPTION, credits_delta := -40,
           month_bucket := 2 }] }

/-- Demonstration input for the sending cap: student 0 has sent 80 of the
100-credit monthly allowance. -/
def capDemo : EngineState :=
  { EngineState.init [0, 1] with quotas :=
      [{ student_id := 0, month_bucket := 1, credits_sent := 80,
         send_limit := 100, carry_forward_applied := false,
         carry_forward_credits := 0, reset_at := none }] }

/-- Combined endorsement invariant carried through the reachability
induction. -/
def endorseInvFull (s : EngineState) : Prop :=
  endorsementAux s ∧ endorsementPairsUnique s ∧ endorsementCountsOk s

/-- Demonstration reachable state for endorsements: one recognition
(id 0, student 0 recognizes student 1 with 30 credits in month 1) endorsed
once by student 0. -/
def endorseDemo : EngineState :=
  applyOp (applyOp (EngineState.init [0, 1]) (.createRecognition 0 1 30 1))
    (.createEndorsement 0 0)

/-- Demonstration input for the leaderboard: three students, student 1
received 30 credits and student 2 received 50. -/
def lbDemo : EngineState :=
  { EngineState.init [0, 1, 2] with recognitions :=
      [{ recognition_id := 0, sender_id := 0, receiver_id := 1,
         credits_transferred := 30, month_bucket := 1,
         endorsement_count := 0 },
       { recognition_id := 1, sender_id := 0, receiver_id := 2,
         credits_transferred := 50, month_bucket := 1,
         endorsement_count := 0 }] }

/-! ## Basic lemmas about the store helpers -/

theorem ledgerSum_append (p : CreditLedgerEntry → Bool)
    (l1 l2 : List CreditLedgerEntry) :
    ledgerSum p (l1 ++ l2) = ledgerSum p l1 + ledgerSum p l2 := by
  induction l1 with
  | nil => simp [ledgerSum]
  | cons e rest ih => simp [ledgerSum, ih]; ring

@[simp] theorem quotaKeyMatches_self (q : MonthlyQuota) :
    quotaKeyMatches q.student_id q.month_bucket q = true := by
  simp [quotaKeyMatches]

theorem find?_map_ite {α : Type} (p : α → Bool) (q : α) (hq : p q = true) :
    ∀ l : List α, l.any p = true →
      (l.map (fun r => if p r then q else r)).find? p = some q := by
  intro l
  induction l with
  | nil => intro h; simp at h
  | cons r rest ih =>
    intro h
    by_cases hr : p r = true
    · simp only [List.map_cons, if_pos hr]
      exact List.find?_cons_of_pos _ hq
    · simp only [List.map_cons, if_neg hr]
      rw [List.find?_cons_of_neg _ hr]
      exact ih (by simpa [List.any_cons, hr] using h)

theorem findQuota_upsertQuota_self (qs : List MonthlyQuota) (q : MonthlyQuota) :
    findQuota (upsertQuota qs q) q.student_id q.month_bucket = some q := by
  unfold findQuota upsertQuota
  by_cases hany : qs.any (quotaKeyMatches q.student_id q.month_bucket) = true
  · rw [if_pos hany]
    exact find?_map_ite _ _ (quotaKeyMatches_self q) qs hany
  · rw [if_neg hany]
    rw [List.find?_append]
    have hnone : qs.find? (quotaKeyMatches q.student_id q.month_bucket) = none := by
      rw [List.find?_eq_none]
      intro x hx hpx
      exact hany (List.any_eq_true.mpr ⟨x, hx, hpx⟩)
    rw [hnone]
    simp [List.find?, quotaKeyMatches_self q]

theorem map_ite_of_not_any {α : Type} (p : α → Bool) (q : α) (l : List α)
    (h : ¬ l.any p = true) : l.map (fun r => if p r then q else r) = l := by
  induction l with
  | nil => rfl
  | cons a rest ih =>
    have ha : ¬ p a = true := fun hpa => h (by simp [List.any_cons, hpa])
    have hrest : ¬ rest.any p = true := fun hr => h (by simp [List.any_cons, hr])
    simp only [List.map_cons, if_neg ha, ih hrest]

theorem findQuota_upsertQuota_other (qs : List MonthlyQuota) (q : MonthlyQuota)
    (sid : StudentId) (m : Month)
    (h : ¬(q.student_id = sid ∧ q.month_bucket = m)) :
    findQuota (upsertQuota qs q) sid m = findQuota qs sid m := by
  have hq : quotaKeyMatches sid m q = false := by
    simp [quotaKeyMatches]
    intro h1 h2; exact h ⟨h1, h2⟩
  unfold findQuota upsertQuota
  by_cases hany : qs.any (quotaKeyMatches q.student_id q.month_bucket) = true
  · rw [if_pos hany]
    induction qs with
    | nil => simp
    | cons r rest ih =>
      by_cases hr : quotaKeyMatches q.student_id q.month_bucket r = true
      · simp only [List.map_cons, if_pos hr]
        have hrk : quotaKeyMatches sid m r = false := by
          simp only [quotaKeyMatches, decide_eq_true_eq] at hr ⊢
          simp only [decide_eq_false_iff_not]
          intro hcon
          exact h ⟨hr.1 ▸ hcon.1, hr.2 ▸ hcon.2⟩
        rw [List.find?_cons_of_neg _ (by simp [hq]),
          List.find?_cons_of_neg _ (by simp [hrk])]
        by_cases hrest : rest.any (quotaKeyMatches q.student_id q.month_bucket) = true
        · exact ih hrest
        · rw [map_ite_of_not_any _ _ _ hrest]
      · simp only [List.map_cons, if_neg hr]
        by_cases hrk : quotaKeyMatches sid m r = true
        · rw [List.find?_cons_of_pos _ hrk, List.find?_cons_of_pos _ hrk]
        · rw [List.find?_cons_of_neg _ hrk, List.find?_cons_of_neg _ hrk]
          by_cases hrest : rest.any (quotaKeyMatches q.student_id q.month_bucket) = true
          · exact ih hrest
          · rw [map_ite_of_not_any _ _ _ hrest]
  · rw [if_neg hany]
    rw [List.find?_append]
    cases hfind : qs.find? (quotaKeyMatches sid m) with
    | some r => rfl
    | none => simp [List.find?, hq]

/-- Claim C1, settled against the code: the claim is FALSE of the code.  Every
operation of the trace above commits (no engine raises), every operation
satisfies the interface preconditions, the final state is reachable from an
empty ledger — and student 0's total balance (the sum of all of that student's
ledger deltas) in the final committed state is -60, strictly negative. -/
theorem C1_total_balance_goes_negative :
    Reachable negBal5 ∧
    (create_recognition negBal0 1 0 60 5).isOk = true ∧
    (create_recognition negBal1 0 1 100 5).isOk = true ∧
    (create_recognition negBal3 0 1 60 5).isOk = true ∧
    (redeem negBal4 0 60 5).isOk = true ∧
    current_balance negBal5 0 = -60 ∧
    current_balance negBal5 0 < 0 := by
  refine ⟨?_, by decide, by decide, by decide, by decide, by decide, by decide⟩
  have h0 : Reachable negBal0 := Reachable.init [0, 1]
  have h1 : Reachable negBal1 :=
    Reachable.step (.createRecognition 1 0 60 5) h0 (by decide)
  have h2 : Reachable negBal2 :=
    Reachable.step (.createRecognition 0 1 100 5) h1 (by decide)
  have h3 : Reachable negBal3 :=
    Reachable.step (.runMonthlyResetOp 5) h2 trivial
  have h4 : Reachable negBal4 :=
    Reachable.step (.createRecognition 0 1 60 5) h3 (by decide)
  exact Reachable.step (.redeemOp 0 60 5) h4 (by decide)

/-- Claim C7, settled against the code: the claim is FALSE of the code.  The
job processes every student inside one shared session
(`_execute_monthly_reset` commits once after the whole loop and rolls the
whole session back on any exception), so when processing student 0 fails,
the run raises and commits nothing: in the committed (rolled-back) state
student 1 has no current-month quota row, even though a run of the job that
does not fail gives student 1 a quota row and summary counts show it is
processed.  Under the claim, student 1's updates should have survived. -/
theorem C7_single_failure_rolls_back_whole_batch :
    run_monthly_reset_session faultStart 1 failsOnZero = Except.error () ∧
    findQuota faultStart.quotas 1 1 = none ∧
    (findQuota (run_monthly_reset faultStart 1).1.quotas 1 1).isSome = true ∧
    (run_monthly_reset faultStart 1).2.students_processed = 2 := by
  refine ⟨?_, by decide, by decide, by decide⟩
  have : (run_monthly_reset_session faultStart 1 failsOnZero).isOk = false := by decide
  cases hres : run_monthly_reset_session faultStart 1 failsOnZero with
  | ok v => rw [hres] at this; simp [Except.isOk, Except.toBool] at this
  | error e => rfl

/-! ## Frame and shape lemmas about the engine operations -/

theorem findQuota_some_key {qs : List MonthlyQuota} {sid : StudentId} {m : Month}
    {q : MonthlyQuota} (h : findQuota qs sid m = some q) :
    q.student_id = sid ∧ q.month_bucket = m := by
  have := List.find?_some h
  simpa [quotaKeyMatches] using this

theorem ensure_monthly_context_students (s : EngineState) (sid : StudentId)
    (m : Month) : (ensure_monthly_context s sid m).1.students = s.students := by
  simp only [ensure_monthly_context]
  split <;> split <;> rfl

theorem ensure_monthly_context_recognitions (s : EngineState) (sid : StudentId)
    (m : Month) :
    (ensure_monthly_context s sid m).1.recognitions = s.recognitions := by
  simp only [ensure_monthly_context]
  split <;> split <;> rfl

theorem ensure_monthly_context_endorsements (s : EngineState) (sid : StudentId)
    (m : Month) :
    (ensure_monthly_context s sid m).1.endorsements = s.endorsements := by
  simp only [ensure_monthly_context]
  split <;> split <;> rfl

theorem ensure_monthly_context_redemptions (s : EngineState) (sid : StudentId)
    (m : Month) :
    (ensure_monthly_context s sid m).1.redemptions = s.redemptions := by
  simp only [ensure_monthly_context]
  split <;> split <;> rfl

theorem ensure_monthly_context_ledger (s : EngineState) (sid : StudentId)
    (m : Month) :
    ∃ l0, (ensure_monthly_context s sid m).1.ledger = s.ledger ++ l0 ∧
      ∀ e ∈ l0, e.event_type = CreditEventType.MONTHLY_RESET ∧
        e.credits_delta = 100 := by
  simp only [ensure_monthly_context]
  split
  · split
    · exact ⟨[], by simp, by simp⟩
    · exact ⟨[], by simp, by simp⟩
  · split
    · refine ⟨[monthlyResetEntry sid m], by simp [monthlyResetEntry], ?_⟩
      intro e he
      simp [monthlyResetEntry] at he
      subst he
      exact ⟨rfl, rfl⟩
    · refine ⟨[monthlyResetEntry sid m], by simp [monthlyResetEntry], ?_⟩
      intro e he
      simp [monthlyResetEntry] at he
      subst he
      exact ⟨rfl, rfl⟩

theorem ensure_monthly_context_quota (s : EngineState) (sid : StudentId)
    (m : Month) :
    (ensure_monthly_context s sid m).2 =
      (findQuota s.quotas sid m).getD (defaultQuota sid m) := by
  simp only [ensure_monthly_context]
  split <;> rfl

theorem create_recognition_ok_fields {s : EngineState} {a b : StudentId} {c : Int}
    {m : Month} {st : EngineState} {r : Recognition}
    (h : create_recognition s a b c m = Except.ok (st, r)) :
    st.students = s.students ∧
    st.endorsements = s.endorsements ∧
    st.redemptions = s.redemptions ∧
    st.recognitions = s.recognitions ++ [r] ∧
    r.recognition_id = s.recognitions.length ∧
    r.endorsement_count = 0 ∧
    ∃ l0, st.ledger = s.ledger ++ l0 ∧
      ∀ e ∈ l0,
        (e.event_type = CreditEventType.MONTHLY_RESET ∧ e.credits_delta = 100) ∨
        (e.event_type = CreditEventType.RECOGNITION_SENT ∧
          e.credits_delta = -c) ∨
        (e.event_type = CreditEventType.RECOGNITION_RECEIVED ∧
          e.credits_delta = c) := by
  unfold create_recognition at h
  split at h
  · exact absurd h (by simp)
  split at h
  · exact absurd h (by simp)
  split at h
  · exact absurd h (by simp)
  simp only [] at h
  split at h
  · exact absurd h (by simp)
  split at h
  · exact absurd h (by simp)
  rw [Except.ok.injEq, Prod.mk.injEq] at h
  obtain ⟨hst, hr⟩ := h
  subst hst
  subst hr
  obtain ⟨l1, hl1, hl1p⟩ := ensure_monthly_context_ledger s a m
  obtain ⟨l2, hl2, hl2p⟩ :=
    ensure_monthly_context_ledger (ensure_monthly_context s a m).1 b m
  refine ⟨?_, ?_, ?_, ?_, ?_, rfl, ?_⟩
  · show (ensure_monthly_context (ensure_monthly_context s a m).1 b m).1.students =
      s.students
    rw [ensure_monthly_context_students, ensure_monthly_context_students]
  · show (ensure_monthly_context
        (ensure_monthly_context s a m).1 b m).1.endorsements = s.endorsements
    rw [ensure_monthly_context_endorsements, ensure_monthly_context_endorsements]
  · show (ensure_monthly_context
        (ensure_monthly_context s a m).1 b m).1.redemptions = s.redemptions
    rw [ensure_monthly_context_redemptions, ensure_monthly_context_redemptions]
  · show (ensure_monthly_context
        (ensure_monthly_context s a m).1 b m).1.recognitions ++ _ =
      s.recognitions ++ _
    rw [ensure_monthly_context_recognitions, ensure_monthly_context_recognitions]
  · show (ensure_monthly_context
        (ensure_monthly_context s a m).1 b m).1.recognitions.length =
      s.recognitions.length
    rw [ensure_monthly_context_recognitions, ensure_monthly_context_recognitions]
  · refine ⟨l1 ++ l2 ++
      [{ student_id := a, related_recognition := some (ensure_monthly_context
           (ensure_monthly_context s a m).1 b m).1.recognitions.length,
         event_type := CreditEventType.RECOGNITION_SENT,
         credits_delta := -c, month_bucket := m },
       { student_id := b, related_recognition := some (ensure_monthly_context
           (ensure_monthly_context s a m).1 b m).1.recognitions.length,
         event_type := CreditEventType.RECOGNITION_RECEIVED,
         credits_delta := c, month_bucket := m }], ?_, ?_⟩
    · show (ensure_monthly_context (ensure_monthly_context s a m).1 b m).1.ledger
        ++ _ = _
      rw [hl2, hl1]
      simp [List.append_assoc]
    · intro e he
      simp only [List.mem_append, List.mem_singleton, List.mem_cons,
        List.not_mem_nil, or_false] at he
      rcases he with (he | he) | he | he
      · exact Or.inl (hl1p e he)
      · exact Or.inl (hl2p e he)
      · subst he; exact Or.inr (Or.inl ⟨rfl, rfl⟩)
      · subst he; exact Or.inr (Or.inr ⟨rfl, rfl⟩)

theorem redeem_ok_fields {s : EngineState} {sid : StudentId} {c : Int}
    {m : Month} {st : EngineState} {rd : Redemption} {rem : Int}
    (h : redeem s sid c m = Except.ok (st, rd, rem)) :
    st.students = s.students ∧
    st.endorsements = s.endorsements ∧
    st.recognitions = s.recognitions ∧
    st.quotas = s.quotas ∧
    st.ledger = s.ledger ++
      [{ student_id := sid, related_redemption := some s.redemptions.length,
         event_type := CreditEventType.REDEMPTION, credits_delta := -c,
         month_bucket := m }] := by
  unfold redeem at h
  split at h
  · exact absurd h (by simp)
  simp only [] at h
  split at h
  · exact absurd h (by simp)
  split at h
  · exact absurd h (by simp)
  rw [Except.ok.injEq, Prod.mk.injEq] at h
  obtain ⟨hst, _⟩ := h
  subst hst
  exact ⟨rfl, rfl, rfl, rfl, rfl⟩

theorem create_endorsement_ok_fields {s : EngineState} {rid : Nat}
    {eid : StudentId} {st : EngineState} {en : RecognitionEndorsement}
    (h : create_endorsement s rid eid = Except.ok (st, en)) :
    ∃ rec, s.recognitions.find? (fun r => decide (r.recognition_id = rid)) =
        some rec ∧
      rec.recognition_id = rid ∧
      eid ∈ s.students ∧
      (s.endorsements.any (fun e => decide (e.recognition_id =
        rec.recognition_id ∧ e.endorser_id = eid))) = false ∧
      en = { recognition_id := rec.recognition_id, endorser_id := eid } ∧
      st.students = s.students ∧ st.ledger = s.ledger ∧ st.quotas = s.quotas ∧
      st.redemptions = s.redemptions ∧
      st.endorsements = s.endorsements ++ [en] ∧
      st.recognitions = s.recognitions.map (fun r =>
        if decide (r.recognition_id = rec.recognition_id) then
          { r with endorsement_count := r.endorsement_count + 1 }
        else r) := by
  unfold create_endorsement at h
  split at h
  · exact absurd h (by simp)
  case h_2 rec hfind =>
  split at h
  · exact absurd h (by simp)
  case isFalse hmem =>
  split at h
  · exact absurd h (by simp)
  case isFalse hdup =>
  rw [Except.ok.injEq, Prod.mk.injEq] at h
  obtain ⟨hst, hen⟩ := h
  subst hst
  subst hen
  refine ⟨rec, hfind, ?_, not_not.mp hmem, ?_, rfl, rfl, rfl, rfl, rfl, rfl,
    rfl⟩
  · have := List.find?_some hfind
    simpa using this
  · simpa using hdup

theorem mem_ite_singleton {α : Type} {P : Prop} [Decidable P] {x e : α}
    (h : e ∈ (if P then [x] else [])) : P ∧ e = x := by
  split at h
  case isTrue hp => simp only [List.mem_singleton] at h; exact ⟨hp, h⟩
  case isFalse hp => simp at h

theorem mem_ite_singleton_neg {α : Type} {P : Prop} [Decidable P] {x e : α}
    (h : e ∈ (if P then [] else [x])) : ¬P ∧ e = x := by
  split at h
  case isTrue hp => simp at h
  case isFalse hp => simp only [List.mem_singleton] at h; exact ⟨hp, h⟩

theorem reset_student_step_fields (bucket : Month)
    (acc : EngineState × ResetSummary) (sid : StudentId) :
    (reset_student_step bucket acc sid).1.students = acc.1.students ∧
    (reset_student_step bucket acc sid).1.recognitions = acc.1.recognitions ∧
    (reset_student_step bucket acc sid).1.endorsements = acc.1.endorsements ∧
    (reset_student_step bucket acc sid).1.redemptions = acc.1.redemptions := by
  simp only [reset_student_step]
  split
  · exact ⟨rfl, rfl, rfl, rfl⟩
  · exact ⟨rfl, rfl, rfl, rfl⟩

theorem reset_student_step_signOk (bucket : Month)
    (acc : EngineState × ResetSummary) (sid : StudentId)
    (hinv : ∀ e ∈ acc.1.ledger, signOk e) :
    ∀ e ∈ (reset_student_step bucket acc sid).1.ledger, signOk e := by
  intro e he
  simp only [reset_student_step] at he
  split at he
  · exact hinv e he
  simp only [] at he
  rcases List.mem_append.mp he with he1 | heCarry
  · rcases List.mem_append.mp he1 with he2 | heExp
    · rcases List.mem_append.mp he2 with heOld | heSeed
      · exact hinv e heOld
      · simp only [resetSeedEntries] at heSeed
        obtain ⟨_, hee⟩ := mem_ite_singleton_neg heSeed
        subst hee
        simp only [signOk, monthlyResetEntry]
        norm_num
    · simp only [resetExpiredEntries] at heExp
      obtain ⟨hp, hee⟩ := mem_ite_singleton heExp
      subst hee
      simp only [signOk]
      omega
  · simp only [resetCarryEntries] at heCarry
    obtain ⟨hp, hee⟩ := mem_ite_singleton heCarry
    subst hee
    simp only [signOk]
    omega

theorem getD_findQuota_student_id (qs : List MonthlyQuota) (sid : StudentId)
    (m : Month) :
    ((findQuota qs sid m).getD (defaultQuota sid m)).student_id = sid := by
  cases h : findQuota qs sid m with
  | none => rfl
  | some q => exact (findQuota_some_key h).1

theorem getD_findQuota_month_bucket (qs : List MonthlyQuota) (sid : StudentId)
    (m : Month) :
    ((findQuota qs sid m).getD (defaultQuota sid m)).month_bucket = m := by
  cases h : findQuota qs sid m with
  | none => rfl
  | some q => exact (findQuota_some_key h).2

theorem resetQuotaRow_student_id (s : EngineState) (sid : StudentId)
    (bucket : Month) : (resetQuotaRow s sid bucket).student_id = sid := by
  simp only [resetQuotaRow]
  exact getD_findQuota_student_id _ _ _

theorem resetQuotaRow_month_bucket (s : EngineState) (sid : StudentId)
    (bucket : Month) : (resetQuotaRow s sid bucket).month_bucket = bucket := by
  simp only [resetQuotaRow]
  exact getD_findQuota_month_bucket _ _ _

theorem findQuota_markPriorQuota (s : EngineState) (sid' sid : StudentId)
    (bucket : Month) (m : Month) (h : sid ≠ sid' ∨ m ≠ previous_month_bucket bucket) :
    findQuota (markPriorQuota s sid' bucket) sid m = findQuota s.quotas sid m := by
  unfold markPriorQuota
  split
  case h_1 pq hpq =>
    apply findQuota_upsertQuota_other
    intro hc
    obtain ⟨h1, h2⟩ := hc
    obtain ⟨hk1, hk2⟩ := findQuota_some_key hpq
    dsimp only at h1 h2
    rcases h with h | h
    · exact h (h1 ▸ hk1)
    · exact h (h2 ▸ hk2)
  case h_2 => rfl

theorem reset_student_step_of_skip (bucket : Month)
    (acc : EngineState × ResetSummary) (sid : StudentId)
    (h : monthlyResetSkip acc.1 sid bucket = true) :
    reset_student_step bucket acc sid = acc := by
  simp only [reset_student_step, h, if_true]

theorem reset_student_step_quota_frame (bucket : Month)
    (acc : EngineState × ResetSummary) (sid' sid : StudentId) (m : Month)
    (hne : sid' ≠ sid) :
    findQuota (reset_student_step bucket acc sid').1.quotas sid m =
      findQuota acc.1.quotas sid m := by
  simp only [reset_student_step]
  split
  · rfl
  simp only []
  rw [findQuota_upsertQuota_other]
  · exact findQuota_markPriorQuota _ _ _ _ _ (Or.inl (fun hc => hne hc.symm))
  · intro hc
    rw [resetQuotaRow_student_id] at hc
    exact hne hc.1

theorem reset_student_step_skip_after (bucket : Month)
    (acc : EngineState × ResetSummary) (sid : StudentId) :
    monthlyResetSkip (reset_student_step bucket acc sid).1 sid bucket = true := by
  by_cases hskip : monthlyResetSkip acc.1 sid bucket = true
  · rw [reset_student_step_of_skip _ _ _ hskip]
    exact hskip
  · have hstep : (reset_student_step bucket acc sid).1.quotas =
        upsertQuota (markPriorQuota acc.1 sid bucket)
          (resetQuotaRow acc.1 sid bucket) := by
      simp only [reset_student_step]
      rw [if_neg hskip]
    have hfind : findQuota (upsertQuota (markPriorQuota acc.1 sid bucket)
        (resetQuotaRow acc.1 sid bucket)) sid bucket =
        some (resetQuotaRow acc.1 sid bucket) := by
      have := findQuota_upsertQuota_self (markPriorQuota acc.1 sid bucket)
        (resetQuotaRow acc.1 sid bucket)
      rwa [resetQuotaRow_student_id, resetQuotaRow_month_bucket] at this
    unfold monthlyResetSkip
    rw [hstep, hfind]
    simp [resetQuotaRow]

theorem reset_student_step_preserves_skip (bucket : Month)
    (acc : EngineState × ResetSummary) (sid' sid : StudentId)
    (h : monthlyResetSkip acc.1 sid bucket = true) :
    monthlyResetSkip (reset_student_step bucket acc sid').1 sid bucket = true := by
  by_cases he : sid' = sid
  · subst he
    rw [reset_student_step_of_skip _ _ _ h]
    exact h
  · unfold monthlyResetSkip at h ⊢
    rw [reset_student_step_quota_frame _ _ _ _ _ he]
    exact h

theorem reset_student_step_processed (bucket : Month)
    (acc : EngineState × ResetSummary) (sid : StudentId)
    (hskip : monthlyResetSkip acc.1 sid bucket = false) :
    findQuota (reset_student_step bucket acc sid).1.quotas sid bucket =
      some (resetQuotaRow acc.1 sid bucket) ∧
    (reset_student_step bucket acc sid).1.ledger = acc.1.ledger ++
      resetSeedEntries acc.1 sid bucket ++ resetExpiredEntries acc.1 sid bucket
      ++ resetCarryEntries acc.1 sid bucket ∧
    (reset_student_step bucket acc sid).2 =
      { students_processed := acc.2.students_processed + 1,
        carry_forward_total := acc.2.carry_forward_total +
          min (resetUnused acc.1 sid bucket) 50,
        expired_total := acc.2.expired_total +
          (resetUnused acc.1 sid bucket -
            min (resetUnused acc.1 sid bucket) 50) } := by
  have hsk : ¬ monthlyResetSkip acc.1 sid bucket = true := by simp [hskip]
  refine ⟨?_, ?_, ?_⟩
  · have hq : (reset_student_step bucket acc sid).1.quotas =
        upsertQuota (markPriorQuota acc.1 sid bucket)
          (resetQuotaRow acc.1 sid bucket) := by
      simp only [reset_student_step]
      rw [if_neg hsk]
    rw [hq]
    have := findQuota_upsertQuota_self (markPriorQuota acc.1 sid bucket)
      (resetQuotaRow acc.1 sid bucket)
    rwa [resetQuotaRow_student_id, resetQuotaRow_month_bucket] at this
  · simp only [reset_student_step]
    rw [if_neg hsk]
  · simp only [reset_student_step]
    rw [if_neg hsk]

theorem foldl_reset_preserves_prop (P : EngineState → Prop) (bucket : Month)
    (hstep : ∀ acc sid, P acc.1 → P (reset_student_step bucket acc sid).1) :
    ∀ (l : List StudentId) (acc : EngineState × ResetSummary), P acc.1 →
      P (l.foldl (reset_student_step bucket) acc).1 := by
  intro l
  induction l with
  | nil => intro acc h; exact h
  | cons a rest ih => intro acc h; exact ih _ (hstep _ _ h)

theorem foldl_reset_fields (bucket : Month) :
    ∀ (l : List StudentId) (acc : EngineState × ResetSummary),
      (l.foldl (reset_student_step bucket) acc).1.students = acc.1.students ∧
      (l.foldl (reset_student_step bucket) acc).1.recognitions =
        acc.1.recognitions ∧
      (l.foldl (reset_student_step bucket) acc).1.endorsements =
        acc.1.endorsements ∧
      (l.foldl (reset_student_step bucket) acc).1.redemptions =
        acc.1.redemptions := by
  intro l
  induction l with
  | nil => exact fun acc => ⟨rfl, rfl, rfl, rfl⟩
  | cons a rest ih =>
    intro acc
    have h1 := reset_student_step_fields bucket acc a
    have h2 := ih (reset_student_step bucket acc a)
    exact ⟨h2.1.trans h1.1, h2.2.1.trans h1.2.1, h2.2.2.1.trans h1.2.2.1,
      h2.2.2.2.trans h1.2.2.2⟩

theorem foldl_reset_skip_all (bucket : Month) :
    ∀ (l : List StudentId) (acc : EngineState × ResetSummary) (sid : StudentId),
      sid ∈ l →
      monthlyResetSkip (l.foldl (reset_student_step bucket) acc).1 sid bucket =
        true := by
  intro l
  induction l with
  | nil => intro acc sid h; simp at h
  | cons a rest ih =>
    intro acc sid h
    rcases List.mem_cons.mp h with h | h
    · subst h
      exact foldl_reset_preserves_prop
        (fun st => monthlyResetSkip st sid bucket = true) bucket
        (fun acc2 sid2 hp => reset_student_step_preserves_skip bucket acc2 sid2
          sid hp) rest _ (reset_student_step_skip_after bucket acc sid)
    · exact ih _ sid h

theorem foldl_reset_of_all_skip (bucket : Month) :
    ∀ (l : List StudentId) (acc : EngineState × ResetSummary),
      (∀ sid ∈ l, monthlyResetSkip acc.1 sid bucket = true) →
      l.foldl (reset_student_step bucket) acc = acc := by
  intro l
  induction l with
  | nil => intro acc _; rfl
  | cons a rest ih =>
    intro acc h
    rw [List.foldl_cons,
      reset_student_step_of_skip _ _ _ (h a (List.mem_cons_self a rest))]
    exact ih acc (fun sid hs => h sid (List.mem_cons_of_mem a hs))

/-- Claim C4: invoking `RunMonthlyReset` twice with the same current month
produces exactly the same state (quota rows and ledger included) as invoking
it once; on the second invocation every student is skipped by the idempotency
check (their current-month quota row carries `reset_at` stamped on/after the
bucket), so the second call performs no writes and processes zero students. -/
theorem C4_monthly_reset_idempotent (s : EngineState) (bucket : Month) :
    run_monthly_reset (run_monthly_reset s bucket).1 bucket =
      ((run_monthly_reset s bucket).1,
        { students_processed := 0, carry_forward_total := 0,
          expired_total := 0 }) := by
  have hskipall : ∀ sid ∈ (run_monthly_reset s bucket).1.students,
      monthlyResetSkip (run_monthly_reset s bucket).1 sid bucket = true := by
    intro sid hs
    have hst : (run_monthly_reset s bucket).1.students = s.students :=
      (foldl_reset_fields bucket s.students _).1
    rw [hst] at hs
    exact foldl_reset_skip_all bucket s.students _ sid hs
  exact foldl_reset_of_all_skip bucket _ _ hskipall

theorem resetUnused_nonneg (s : EngineState) (sid : StudentId)
    (bucket : Month) : 0 ≤ resetUnused s sid bucket := by
  simp only [resetUnused]
  split <;> omega

/-- Claim C3: for every student the job processes (not skipped by the
idempotency check), the computed unused allowance is
`max 0 (prior-month restricted sum)`, the stored quota row records
`carry_forward = min unused 50` with `credits_sent = 0`, `send_limit = 100`
and `carry_forward_credits ∈ [0, 50]`, the job appends a
`CARRY_FORWARD_EXPIRED` entry with delta `-unused` exactly when `unused > 0`
and a `CARRY_FORWARD` entry with delta `+carry_forward` exactly when
`carry_forward > 0` (both in the current month bucket), and the summary
accrues `expired = unused - carry_forward`. -/
theorem C3_monthly_reset_per_student (bucket : Month)
    (acc : EngineState × ResetSummary) (sid : StudentId)
    (hskip : monthlyResetSkip acc.1 sid bucket = false) :
    resetUnused acc.1 sid bucket = max 0 (resetUnusedRaw acc.1 sid bucket) ∧
    (∃ q, findQuota (reset_student_step bucket acc sid).1.quotas sid bucket =
        some q ∧
      q.carry_forward_credits = min (resetUnused acc.1 sid bucket) 50 ∧
      0 ≤ q.carry_forward_credits ∧ q.carry_forward_credits ≤ 50 ∧
      q.credits_sent = 0 ∧ q.send_limit = 100) ∧
    (reset_student_step bucket acc sid).1.ledger = acc.1.ledger ++
      resetSeedEntries acc.1 sid bucket ++
      (if resetUnused acc.1 sid bucket > 0 then
        [{ student_id := sid,
           event_type := CreditEventType.CARRY_FORWARD_EXPIRED,
           credits_delta := -(resetUnused acc.1 sid bucket),
           month_bucket := bucket }]
      else []) ++
      (if min (resetUnused acc.1 sid bucket) 50 > 0 then
        [{ student_id := sid, event_type := CreditEventType.CARRY_FORWARD,
           credits_delta := min (resetUnused acc.1 sid bucket) 50,
           month_bucket := bucket }]
      else []) ∧
    (reset_student_step bucket acc sid).2.expired_total =
      acc.2.expired_total + (resetUnused acc.1 sid bucket -
        min (resetUnused acc.1 sid bucket) 50) := by
  have hp := reset_student_step_processed bucket acc sid hskip
  refine ⟨?_, ⟨resetQuotaRow acc.1 sid bucket, hp.1, rfl, ?_, ?_, rfl, rfl⟩,
    ?_, ?_⟩
  · simp only [resetUnused, max_def]
    split <;> split <;> omega
  · show 0 ≤ min (resetUnused acc.1 sid bucket) 50
    exact le_min (resetUnused_nonneg _ _ _) (by norm_num)
  · show min (resetUnused acc.1 sid bucket) 50 ≤ 50
    exact min_le_right _ _
  · rw [hp.2.1]
    simp only [resetExpiredEntries, resetCarryEntries]
  · rw [hp.2.2]

/-- Witness for C3 at the spec scenario: prior-month unused 70 yields
carry-forward 50 and expired 20. -/
theorem C3_witness :
    monthlyResetSkip resetDemo.1 0 2 = false ∧
    resetUnused resetDemo.1 0 2 = 70 ∧
    (∃ q, findQuota (reset_student_step 2 resetDemo 0).1.quotas 0 2 = some q ∧
      q.carry_forward_credits = 50) ∧
    (reset_student_step 2 resetDemo 0).2.expired_total = 20 := by
  have h := C3_monthly_reset_per_student 2 resetDemo 0 (by decide)
  refine ⟨by decide, by decide, ?_, ?_⟩
  · obtain ⟨q, hq, hcf, _⟩ := h.2.1
    refine ⟨q, hq, ?_⟩
    rw [hcf]
    decide
  · rw [h.2.2.2]
    decide

theorem reset_student_step_establishes_done (bucket : Month)
    (acc : EngineState × ResetSummary) (sid : StudentId) (q : MonthlyQuota)
    (hq : findQuota acc.1.quotas sid bucket = some q)
    (hra : q.reset_at = none) :
    quotaResetDone (reset_student_step bucket acc sid).1 sid bucket := by
  have hskip : monthlyResetSkip acc.1 sid bucket = false := by
    unfold monthlyResetSkip
    rw [hq]
    simp [hra]
  have hp := reset_student_step_processed bucket acc sid hskip
  refine ⟨resetQuotaRow acc.1 sid bucket, hp.1, rfl, rfl, ?_, ?_, rfl⟩
  · show 0 ≤ min (resetUnused acc.1 sid bucket) 50
    exact le_min (resetUnused_nonneg _ _ _) (by norm_num)
  · show min (resetUnused acc.1 sid bucket) 50 ≤ 50
    exact min_le_right _ _

theorem reset_student_step_preserves_done (bucket : Month)
    (acc : EngineState × ResetSummary) (sid' sid : StudentId)
    (h : quotaResetDone acc.1 sid bucket) :
    quotaResetDone (reset_student_step bucket acc sid').1 sid bucket := by
  obtain ⟨q, hq, h1, h2, h3, h4, h5⟩ := h
  by_cases he : sid' = sid
  · subst he
    have hskip : monthlyResetSkip acc.1 sid' bucket = true := by
      unfold monthlyResetSkip
      rw [hq]
      simp [h5]
    rw [reset_student_step_of_skip _ _ _ hskip]
    exact ⟨q, hq, h1, h2, h3, h4, h5⟩
  · refine ⟨q, ?_, h1, h2, h3, h4, h5⟩
    rw [reset_student_step_quota_frame bucket acc sid' sid bucket he]
    exact hq

theorem foldl_reset_done (bucket : Month) :
    ∀ (l : List StudentId) (acc : EngineState × ResetSummary)
      (sid : StudentId), sid ∈ l →
      ((∃ q, findQuota acc.1.quotas sid bucket = some q ∧ q.reset_at = none) ∨
        quotaResetDone acc.1 sid bucket) →
      quotaResetDone (l.foldl (reset_student_step bucket) acc).1 sid bucket := by
  intro l
  induction l with
  | nil => intro acc sid h; simp at h
  | cons a rest ih =>
    intro acc sid hmem hpre
    rcases List.mem_cons.mp hmem with heq | hmem2
    · subst heq
      have hdone : quotaResetDone (reset_student_step bucket acc sid).1 sid
          bucket := by
        rcases hpre with ⟨q, hq, hra⟩ | hdone
        · exact reset_student_step_establishes_done bucket acc sid q hq hra
        · exact reset_student_step_preserves_done bucket acc sid sid hdone
      exact foldl_reset_preserves_prop (fun st => quotaResetDone st sid bucket)
        bucket (fun acc2 sid2 hp =>
          reset_student_step_preserves_done bucket acc2 sid2 sid hp) rest _
        hdone
    · by_cases he : a = sid
      · subst he
        have hdone : quotaResetDone (reset_student_step bucket acc a).1 a
            bucket := by
          rcases hpre with ⟨q, hq, hra⟩ | hdone
          · exact reset_student_step_establishes_done bucket acc a q hq hra
          · exact reset_student_step_preserves_done bucket acc a a hdone
        exact foldl_reset_preserves_prop
          (fun st => quotaResetDone st a bucket) bucket
          (fun acc2 sid2 hp =>
            reset_student_step_preserves_done bucket acc2 sid2 a hp) rest _
          hdone
      · apply ih _ sid hmem2
        rcases hpre with ⟨q, hq, hra⟩ | hdone
        · refine Or.inl ⟨q, ?_, hra⟩
          rw [reset_student_step_quota_frame bucket acc a sid bucket he]
          exact hq
        · exact Or.inr
            (reset_student_step_preserves_done bucket acc a sid hdone)

/-- Claim C10: the monthly reset job does not skip a student whose
current-month quota row exists with a null `reset_at` (the shape lazy
creation on the write path produces): after the job runs, that student's
current-month quota row has `credits_sent = 0` and `send_limit = 100` and is
stamped `reset_at` in the current bucket, whatever sending usage the row had
accumulated — the prior usage is erased. -/
theorem C10_lazy_quota_rewritten_by_job (s : EngineState) (sid : StudentId)
    (bucket : Month) (q : MonthlyQuota) (hmem : sid ∈ s.students)
    (hq : findQuota s.quotas sid bucket = some q) (hra : q.reset_at = none) :
    ∃ q', findQuota (run_monthly_reset s bucket).1.quotas sid bucket =
        some q' ∧
      q'.credits_sent = 0 ∧ q'.send_limit = 100 ∧
      q'.reset_at = some bucket := by
  have h := foldl_reset_done bucket s.students
    (s, { students_processed := 0, carry_forward_total := 0,
          expired_total := 0 }) sid hmem (Or.inl ⟨q, hq, hra⟩)
  obtain ⟨q', hq', h1, h2, _, _, h5⟩ := h
  exact ⟨q', hq', h1, h2, h5⟩

/-- Witness for C10: a lazily created current-month quota row with 77 credits
already sent and a null `reset_at` is rewritten to zero usage by the job. -/
theorem C10_witness :
    (∃ q', findQuota (run_monthly_reset lazyQuotaDemo 1).1.quotas 0 1 =
        some q' ∧
      q'.credits_sent = 0 ∧ q'.send_limit = 100 ∧
      q'.reset_at = some 1) ∧
    (∃ q, findQuota lazyQuotaDemo.quotas 0 1 = some q ∧
      q.credits_sent = 77 ∧ q.reset_at = none) := by
  refine ⟨?_, by decide⟩
  exact C10_lazy_quota_rewritten_by_job lazyQuotaDemo 0 1
    { student_id := 0, month_bucket := 1, credits_sent := 77,
      send_limit := 100, carry_forward_applied := false,
      carry_forward_credits := 0, reset_at := none }
    (by decide) (by decide) (by decide)

/-! ## Claim C2: the delta-sign discipline over reachable states -/

theorem signOk_of_kind_delta {e : CreditLedgerEntry}
    (h : ((e.event_type = CreditEventType.MONTHLY_RESET ∨
        e.event_type = CreditEventType.CARRY_FORWARD ∨
        e.event_type = CreditEventType.RECOGNITION_RECEIVED) ∧
        0 < e.credits_delta) ∨
      ((e.event_type = CreditEventType.RECOGNITION_SENT ∨
        e.event_type = CreditEventType.REDEMPTION ∨
        e.event_type = CreditEventType.CARRY_FORWARD_EXPIRED) ∧
        e.credits_delta < 0)) : signOk e := by
  unfold signOk
  rcases h with ⟨hk, hv⟩ | ⟨hk, hv⟩ <;> rcases hk with h | h | h <;> rw [h] <;>
    exact hv

theorem applyOp_signOk {s : EngineState} (op : EngineOp) (hv : op.valid)
    (hinv : ∀ e ∈ s.ledger, signOk e) :
    ∀ e ∈ (applyOp s op).ledger, signOk e := by
  cases op with
  | createRecognition a b c m =>
    simp only [applyOp]
    cases hres : create_recognition s a b c m with
    | error err => exact hinv
    | ok res =>
      obtain ⟨st, r⟩ := res
      obtain ⟨c1, c2⟩ := hv
      obtain ⟨-, -, -, -, -, -, l0, hl, hlp⟩ :=
        create_recognition_ok_fields hres
      intro e he
      simp only [] at he
      rw [hl] at he
      rcases List.mem_append.mp he with he | he
      · exact hinv e he
      · rcases hlp e he with ⟨ht, hd⟩ | ⟨ht, hd⟩ | ⟨ht, hd⟩
        · exact signOk_of_kind_delta (Or.inl ⟨Or.inl ht, by omega⟩)
        · exact signOk_of_kind_delta (Or.inr ⟨Or.inl ht, by omega⟩)
        · exact signOk_of_kind_delta
            (Or.inl ⟨Or.inr (Or.inr ht), by omega⟩)
  | createEndorsement rid eid =>
    simp only [applyOp]
    cases hres : create_endorsement s rid eid with
    | error err => exact hinv
    | ok res =>
      obtain ⟨st, en⟩ := res
      obtain ⟨rec, -, -, -, -, -, -, hled, -, -, -⟩ :=
        create_endorsement_ok_fields hres
      intro e he
      simp only [] at he
      rw [hled] at he
      exact hinv e he
  | redeemOp sid c m =>
    simp only [applyOp]
    cases hres : redeem s sid c m with
    | error err => exact hinv
    | ok res =>
      obtain ⟨st, rd, rem⟩ := res
      obtain ⟨-, -, -, -, hled⟩ := redeem_ok_fields hres
      intro e he
      simp only [] at he
      rw [hled] at he
      rcases List.mem_append.mp he with he | he
      · exact hinv e he
      · simp only [List.mem_singleton] at he
        subst he
        have hc : 1 ≤ c := hv
        exact signOk_of_kind_delta (Or.inr ⟨Or.inr (Or.inl rfl), by
          show -c < 0
          omega⟩)
  | runMonthlyResetOp m =>
    simp only [applyOp]
    exact foldl_reset_preserves_prop (fun st => ∀ e ∈ st.ledger, signOk e) m
      (fun acc sid hp => reset_student_step_signOk m acc sid hp) s.students
      (s, { students_processed := 0, carry_forward_total := 0,
            expired_total := 0 }) hinv

/-- Claim C2: in every state reachable by engine operations satisfying the
interface preconditions (recognition credits in 1..100, redeemed credits
positive), every ledger entry's delta sign is fixed by its event kind:
`RECOGNITION_SENT`, `REDEMPTION` and `CARRY_FORWARD_EXPIRED` entries are
strictly negative, `RECOGNITION_RECEIVED`, `MONTHLY_RESET` and
`CARRY_FORWARD` entries are strictly positive. -/
theorem C2_delta_sign_fixed_by_kind {s : EngineState} (h : Reachable s) :
    ∀ e ∈ s.ledger, signOk e := by
  induction h with
  | init students => intro e he; simp [EngineState.init] at he
  | step op hre hv ih => exact applyOp_signOk op hv ih

/-- Witness for C2: the baseline reset entry seeded by the first recognition
of the month, in a concrete reachable state. -/
theorem C2_witness :
    signOk { student_id := 0, event_type := CreditEventType.MONTHLY_RESET,
             credits_delta := 100, month_bucket := 1 } := by
  have hre : Reachable (applyOp (EngineState.init [0, 1])
      (.createRecognition 0 1 30 1)) :=
    Reachable.step _ (Reachable.init [0, 1]) (by decide)
  exact C2_delta_sign_fixed_by_kind hre _ (by decide)

/-! ## Claims C5 and C6: redemption and sending-cap behavior -/

theorem ledgerSum_add_of_disjoint (f g h : CreditLedgerEntry → Bool)
    (hfg : ∀ e, (h e = (f e || g e)) ∧ ¬(f e = true ∧ g e = true)) :
    ∀ l, ledgerSum f l + ledgerSum g l = ledgerSum h l := by
  intro l
  induction l with
  | nil => rfl
  | cons e rest ih =>
    simp only [ledgerSum]
    obtain ⟨h1, h2⟩ := hfg e
    by_cases hf : f e = true
    · have hg : ¬ g e = true := fun hg => h2 ⟨hf, hg⟩
      rw [if_pos hf, if_neg hg, if_pos (by rw [h1, hf]; simp)]
      omega
    · by_cases hg : g e = true
      · rw [if_neg hf, if_pos hg, if_pos (by rw [h1, hg]; simp)]
        omega
      · rw [if_neg hf, if_neg hg, if_neg (by rw [h1]; simp [hf, hg])]
        omega

theorem redeemable_balance_eq_restricted_sum (s : EngineState)
    (sid : StudentId) :
    redeemable_balance s sid = ledgerSum (fun e =>
      decide (e.student_id = sid ∧
        (e.event_type = CreditEventType.RECOGNITION_RECEIVED ∨
          e.event_type = CreditEventType.CARRY_FORWARD ∨
          e.event_type = CreditEventType.REDEMPTION ∨
          e.event_type = CreditEventType.CARRY_FORWARD_EXPIRED)))
      s.ledger := by
  unfold redeemable_balance
  simp only []
  apply ledgerSum_add_of_disjoint
  intro e
  obtain ⟨esid, et, ed, em, er1, er2⟩ := e
  constructor
  · by_cases hs : esid = sid <;> cases et <;> simp [hs]
  · by_cases hs : esid = sid <;> cases et <;> simp [hs]

/-- Claim C5: `Redeem(studentId, credits)` with positive credits resolves the
student (not-found when absent), computes the redeemable balance as the
restricted-kind ledger sum, rejects with "no redeemable credits" when that
balance is non-positive, rejects reporting the redeemable amount when the
request exceeds it, and otherwise commits an `ISSUED` redemption with
`voucher_value = credits * 5`, appends exactly one `REDEMPTION` ledger entry
with delta `-credits`, and returns remaining balance `redeemable - credits`. -/
theorem C5_redeem_behavior (s : EngineState) (sid : StudentId) (c : Int)
    (m : Month) (hc : 0 < c) :
    redeemable_balance s sid = ledgerSum (fun e =>
      decide (e.student_id = sid ∧
        (e.event_type = CreditEventType.RECOGNITION_RECEIVED ∨
          e.event_type = CreditEventType.CARRY_FORWARD ∨
          e.event_type = CreditEventType.REDEMPTION ∨
          e.event_type = CreditEventType.CARRY_FORWARD_EXPIRED)))
      s.ledger ∧
    (sid ∉ s.students →
      redeem s sid c m = Except.error (.studentNotFound sid)) ∧
    (sid ∈ s.students → redeemable_balance s sid ≤ 0 →
      redeem s sid c m = Except.error .noRedeemableCredits) ∧
    (sid ∈ s.students → 0 < redeemable_balance s sid →
      redeemable_balance s sid < c →
      redeem s sid c m =
        Except.error (.exceedsRedeemable (redeemable_balance s sid))) ∧
    (sid ∈ s.students → 0 < redeemable_balance s sid →
      c ≤ redeemable_balance s sid →
      redeem s sid c m = Except.ok
        ({ s with
            redemptions := s.redemptions ++
              [{ redemption_id := s.redemptions.length, student_id := sid,
                 credits_redeemed := c, voucher_value := c * 5,
                 status := RedemptionStatus.ISSUED }],
            ledger := s.ledger ++
              [{ student_id := sid,
                 related_redemption := some s.redemptions.length,
                 event_type := CreditEventType.REDEMPTION,
                 credits_delta := -c, month_bucket := m }] },
         { redemption_id := s.redemptions.length, student_id := sid,
           credits_redeemed := c, voucher_value := c * 5,
           status := RedemptionStatus.ISSUED },
         redeemable_balance s sid - c)) := by
  refine ⟨redeemable_balance_eq_restricted_sum s sid, ?_, ?_, ?_, ?_⟩
  · intro hmem
    unfold redeem
    rw [if_pos hmem]
  · intro hmem hle
    unfold redeem
    rw [if_neg (not_not_intro hmem)]
    simp only []
    rw [if_pos hle]
  · intro hmem hpos hlt
    unfold redeem
    rw [if_neg (not_not_intro hmem)]
    simp only []
    rw [if_neg (by omega : ¬ redeemable_balance s sid ≤ 0),
      if_pos (by omega : c > redeemable_balance s sid)]
  · intro hmem hpos hle
    unfold redeem
    rw [if_neg (not_not_intro hmem)]
    simp only []
    rw [if_neg (by omega : ¬ redeemable_balance s sid ≤ 0),
      if_neg (by omega : ¬ c > redeemable_balance s sid)]

/-- Witness for C5 at the spec scenario: a student with redeemable balance 40
redeems 40, yielding an `ISSUED` redemption with voucher value 200 and
remaining balance 0; a subsequent redemption of any positive amount is
rejected with "no redeemable credits". -/
theorem C5_witness :
    redeem redeemDemo 0 40 2 = Except.ok (redeemAfter, issued40, 0) ∧
    redeemable_balance redeemAfter 0 = 0 ∧
    redeem redeemAfter 0 10 2 =
      Except.error RedemptionError.noRedeemableCredits ∧
    issued40.voucher_value = 200 ∧
    issued40.status = RedemptionStatus.ISSUED := by
  have h1 := C5_redeem_behavior redeemDemo 0 40 2 (by decide)
  have h2 := C5_redeem_behavior redeemAfter 0 10 2 (by decide)
  refine ⟨?_, by decide, ?_, by decide, by decide⟩
  · have he := h1.2.2.2.2 (by decide) (by decide) (by decide)
    rw [he]
    exact congrArg Except.ok (by decide)
  · exact h2.2.2.1 (by decide) (by decide)

/-- Claim C6: `CreateRecognition` fails with a rule violation whenever the
sender's current-month quota satisfies
`credits_sent + credits > send_limit`, the violation reports the remaining
allowance `max (send_limit - credits_sent) 0`, and the committed quota and
ledger state is unchanged (the transaction rolls back). -/
theorem C6_sending_cap_violation (s : EngineState) (a b : StudentId) (c : Int)
    (m : Month) (hab : a ≠ b) (ha : a ∈ s.students) (hb : b ∈ s.students)
    (hcap : (effectiveQuota s a m).credits_sent + c >
      (effectiveQuota s a m).send_limit) :
    create_recognition s a b c m = Except.error (.capExceeded
      (max ((effectiveQuota s a m).send_limit -
        (effectiveQuota s a m).credits_sent) 0)) ∧
    applyOp s (.createRecognition a b c m) = s := by
  have herr : create_recognition s a b c m = Except.error (.capExceeded
      (max ((effectiveQuota s a m).send_limit -
        (effectiveQuota s a m).credits_sent) 0)) := by
    unfold create_recognition
    rw [if_neg hab, if_neg (not_not_intro ha), if_neg (not_not_intro hb)]
    simp only []
    rw [ensure_monthly_context_quota]
    simp only [effectiveQuota] at hcap ⊢
    rw [if_pos hcap]
  refine ⟨herr, ?_⟩
  simp only [applyOp, herr]

/-- Witness for C6 at the spec scenario: a sender who has sent 80 this month
and requests 30 more is rejected and the violation reports 20 remaining; the
committed state is unchanged. -/
theorem C6_witness :
    create_recognition capDemo 0 1 30 1 =
      Except.error (RecognitionError.capExceeded 20) ∧
    applyOp capDemo (.createRecognition 0 1 30 1) = capDemo := by
  have h := C6_sending_cap_violation capDemo 0 1 30 1 (by decide) (by decide)
    (by decide) (by decide)
  refine ⟨?_, h.2⟩
  rw [h.1]
  exact congrArg Except.error (by decide)

/-! ## Claim C8: endorsement uniqueness and counter consistency -/

theorem recognition_id_lt_length {s : EngineState} (haux : endorsementAux s)
    {r : Recognition} (hr : r ∈ s.recognitions) :
    r.recognition_id < s.recognitions.length := by
  have hmem : r.recognition_id ∈
      s.recognitions.map (fun r => r.recognition_id) :=
    List.mem_map_of_mem _ hr
  rw [haux.1] at hmem
  exact List.mem_range.mp hmem

theorem endorseInvFull_createRecognition {s st : EngineState}
    {a b : StudentId} {c : Int} {m : Month} {r : Recognition}
    (hres : create_recognition s a b c m = Except.ok (st, r))
    (hinv : endorseInvFull s) : endorseInvFull st := by
  obtain ⟨⟨haux1, haux2⟩, hpair, hcount⟩ := hinv
  obtain ⟨hstud, hend, -, hrecs, hrid, hcnt0, -⟩ :=
    create_recognition_ok_fields hres
  refine ⟨⟨?_, ?_⟩, ?_, ?_⟩
  · rw [hrecs, List.map_append, haux1, List.length_append]
    simp [List.range_succ, hrid]
  · intro e he
    rw [hend] at he
    obtain ⟨⟨r', hr', hid⟩, hstu⟩ := haux2 e he
    exact ⟨⟨r', by rw [hrecs]; exact List.mem_append_left _ hr', hid⟩,
      by rw [hstud]; exact hstu⟩
  · unfold endorsementPairsUnique
    rw [hend]
    exact hpair
  · intro r' hr'
    rw [hrecs] at hr'
    rcases List.mem_append.mp hr' with hmem | hmem
    · rw [hend]
      exact hcount r' hmem
    · simp only [List.mem_singleton] at hmem
      subst hmem
      rw [hend, hcnt0]
      have hfil : s.endorsements.filter (fun e =>
          decide (e.recognition_id = r'.recognition_id)) = [] := by
        rw [List.filter_eq_nil]
        intro e he
        obtain ⟨⟨rr, hrr, hid⟩, -⟩ := haux2 e he
        have hlt := recognition_id_lt_length ⟨haux1, haux2⟩ hrr
        simp only [decide_eq_true_eq]
        omega
      rw [hfil]
      rfl

theorem incIf_id (rec r : Recognition) :
    (if decide (r.recognition_id = rec.recognition_id) then
      { r with endorsement_count := r.endorsement_count + 1 }
    else r).recognition_id = r.recognition_id := by
  split <;> rfl

theorem incIf_count (rec r : Recognition)
    (h : r.recognition_id = rec.recognition_id) :
    (if decide (r.recognition_id = rec.recognition_id) then
      { r with endorsement_count := r.endorsement_count + 1 }
    else r).endorsement_count = r.endorsement_count + 1 := by
  rw [if_pos (by simp [h])]

theorem endorseInvFull_createEndorsement {s st : EngineState} {rid : Nat}
    {eid : StudentId} {en : RecognitionEndorsement}
    (hres : create_endorsement s rid eid = Except.ok (st, en))
    (hinv : endorseInvFull s) : endorseInvFull st := by
  obtain ⟨⟨haux1, haux2⟩, hpair, hcount⟩ := hinv
  obtain ⟨rec, hfind, hrecid, hstu, hdup, hen, hstud, -, -, -, hend, hrecs⟩ :=
    create_endorsement_ok_fields hres
  have hnodup : ∀ e ∈ s.endorsements,
      ¬(e.recognition_id = rec.recognition_id ∧ e.endorser_id = eid) := by
    intro e he hcon
    have := List.any_eq_false.mp hdup e he
    simp only [decide_eq_true_eq] at this
    exact this hcon
  refine ⟨⟨?_, ?_⟩, ?_, ?_⟩
  · rw [hrecs, List.map_map]
    have : s.recognitions.map ((fun r => r.recognition_id) ∘ (fun r =>
        if decide (r.recognition_id = rec.recognition_id) then
          { r with endorsement_count := r.endorsement_count + 1 }
        else r)) = s.recognitions.map (fun r => r.recognition_id) := by
      apply List.map_congr_left
      intro r hr
      simp only [Function.comp_apply]
      exact incIf_id rec r
    rw [this, haux1, List.length_map]
  · intro e he
    rw [hend] at he
    rcases List.mem_append.mp he with he | he
    · obtain ⟨⟨r', hr', hid⟩, hstu'⟩ := haux2 e he
      have hmem := List.mem_map_of_mem (fun r =>
        if decide (r.recognition_id = rec.recognition_id) then
          { r with endorsement_count := r.endorsement_count + 1 }
        else r) hr'
      rw [← hrecs] at hmem
      exact ⟨⟨_, hmem, by rw [incIf_id]; exact hid⟩,
        by rw [hstud]; exact hstu'⟩
    · simp only [List.mem_singleton] at he
      subst he
      have hrecmem := List.mem_of_find?_eq_some hfind
      have hmem := List.mem_map_of_mem (fun r =>
        if decide (r.recognition_id = rec.recognition_id) then
          { r with endorsement_count := r.endorsement_count + 1 }
        else r) hrecmem
      rw [← hrecs] at hmem
      refine ⟨⟨_, hmem, by rw [incIf_id]; simp [hen]⟩, ?_⟩
      rw [hstud, hen]
      exact hstu
  · unfold endorsementPairsUnique
    rw [hend, List.pairwise_append]
    refine ⟨hpair, List.pairwise_singleton _ _, ?_⟩
    intro x hx y hy
    simp only [List.mem_singleton] at hy
    subst hy
    rw [hen]
    intro hcon
    exact hnodup x hx ⟨hcon.1, hcon.2⟩
  · intro r' hr'
    rw [hrecs] at hr'
    obtain ⟨r, hr, hgr⟩ := List.mem_map.mp hr'
    rw [hend, List.filter_append]
    by_cases h : r.recognition_id = rec.recognition_id
    · have hid' : r'.recognition_id = r.recognition_id := by
        rw [← hgr]
        exact incIf_id rec r
      have hcnt' : r'.endorsement_count = r.endorsement_count + 1 := by
        rw [← hgr]
        exact incIf_count rec r h
      have hfil2 : [en].filter (fun e =>
          decide (e.recognition_id = r'.recognition_id)) = [en] := by
        rw [hen]
        simp [hid', h]
      rw [hfil2, List.length_append, hcnt', hid']
      have hc := hcount r hr
      simp only [List.length_singleton]
      push_cast
      omega
    · have hgr' : r' = r := by rw [← hgr]; simp [h]
      subst hgr'
      have hfil2 : [en].filter (fun e =>
          decide (e.recognition_id = r'.recognition_id)) = [] := by
        rw [hen]
        simp only [List.filter_cons, List.filter_nil, decide_eq_true_eq]
        rw [if_neg (fun hc => h hc.symm)]
      rw [hfil2, List.append_nil]
      exact hcount r' hr

theorem endorseInvFull_frame {s st : EngineState}
    (h1 : st.recognitions = s.recognitions)
    (h2 : st.endorsements = s.endorsements) (h3 : st.students = s.students)
    (hinv : endorseInvFull s) : endorseInvFull st := by
  obtain ⟨⟨a1, a2⟩, p, c⟩ := hinv
  refine ⟨⟨by rw [h1]; exact a1, ?_⟩, ?_, ?_⟩
  · intro e he
    rw [h2] at he
    obtain ⟨⟨r, hr, hid⟩, hs⟩ := a2 e he
    exact ⟨⟨r, by rw [h1]; exact hr, hid⟩, by rw [h3]; exact hs⟩
  · unfold endorsementPairsUnique
    rw [h2]
    exact p
  · intro r hr
    rw [h1] at hr
    rw [h2]
    exact c r hr

theorem endorseInvFull_init (students : List StudentId) :
    endorseInvFull (EngineState.init students) := by
  refine ⟨⟨rfl, ?_⟩, List.Pairwise.nil, ?_⟩
  · intro e he
    exact absurd he (by simp [EngineState.init])
  · intro r hr
    exact absurd hr (by simp [EngineState.init])

theorem applyOp_endorseInvFull {s : EngineState} (op : EngineOp)
    (hinv : endorseInvFull s) : endorseInvFull (applyOp s op) := by
  cases op with
  | createRecognition a b c m =>
    simp only [applyOp]
    cases hres : create_recognition s a b c m with
    | error e => exact hinv
    | ok res =>
      obtain ⟨st, r⟩ := res
      exact endorseInvFull_createRecognition hres hinv
  | createEndorsement rid eid =>
    simp only [applyOp]
    cases hres : create_endorsement s rid eid with
    | error e => exact hinv
    | ok res =>
      obtain ⟨st, en⟩ := res
      exact endorseInvFull_createEndorsement hres hinv
  | redeemOp sid c m =>
    simp only [applyOp]
    cases hres : redeem s sid c m with
    | error e => exact hinv
    | ok res =>
      obtain ⟨st, rd, rem⟩ := res
      obtain ⟨h3, h2, h1, -, -⟩ := redeem_ok_fields hres
      exact endorseInvFull_frame h1 h2 h3 hinv
  | runMonthlyResetOp m =>
    simp only [applyOp]
    obtain ⟨h3, h1, h2, -⟩ := foldl_reset_fields m s.students
      (s, { students_processed := 0, carry_forward_total := 0,
            expired_total := 0 })
    exact endorseInvFull_frame h1 h2 h3 hinv

theorem reachable_endorseInvFull {s : EngineState} (h : Reachable s) :
    endorseInvFull s := by
  induction h with
  | init students => exact endorseInvFull_init students
  | step op hre hv ih => exact applyOp_endorseInvFull op ih

/-- Claim C8: in every reachable state, at most one endorsement row exists per
`(recognition, endorser)` pair, every recognition's `endorsement_count`
equals the number of endorsement rows referencing it, and `CreateEndorsement`
fails with the duplicate-endorsement rule violation whenever an endorsement
for that pair already exists. -/
theorem C8_endorsement_uniqueness_and_counts {s : EngineState}
    (h : Reachable s) :
    endorsementPairsUnique s ∧ endorsementCountsOk s ∧
    (∀ rid eid, (∃ e ∈ s.endorsements, e.recognition_id = rid ∧
        e.endorser_id = eid) →
      create_endorsement s rid eid = Except.error .alreadyEndorsed) := by
  obtain ⟨⟨haux1, haux2⟩, hpair, hcount⟩ := reachable_endorseInvFull h
  refine ⟨hpair, hcount, ?_⟩
  intro rid eid hex
  obtain ⟨e, he, hrid, heid⟩ := hex
  have hsome : (s.recognitions.find? (fun r =>
      decide (r.recognition_id = rid))).isSome = true := by
    rw [List.find?_isSome]
    obtain ⟨⟨r, hr, hid⟩, -⟩ := haux2 e he
    exact ⟨r, hr, by simp [hid, hrid]⟩
  cases hfind : s.recognitions.find? (fun r =>
      decide (r.recognition_id = rid)) with
  | none =>
    rw [hfind] at hsome
    simp at hsome
  | some rec =>
    have hrecid : rec.recognition_id = rid := by
      have := List.find?_some hfind
      simpa using this
    have hmem : eid ∈ s.students := heid ▸ (haux2 e he).2
    have hany : (s.endorsements.any (fun e' =>
        decide (e'.recognition_id = rec.recognition_id ∧
          e'.endorser_id = eid))) = true := by
      rw [List.any_eq_true]
      exact ⟨e, he, by simp [hrid, hrecid, heid]⟩
    unfold create_endorsement
    rw [hfind]
    simp only []
    rw [if_neg (not_not_intro hmem), if_pos hany]

/-- Witness for C8: in the concrete reachable two-student state with one
endorsed recognition, a duplicate endorsement is rejected and the counter
matches the row count. -/
theorem C8_witness :
    create_endorsement endorseDemo 0 0 = Except.error .alreadyEndorsed ∧
    endorsementCountsOk endorseDemo := by
  have hre : Reachable endorseDemo :=
    Reachable.step (.createEndorsement 0 0)
      (Reachable.step (.createRecognition 0 1 30 1)
        (Reachable.init [0, 1]) (by decide)) trivial
  have h := C8_endorsement_uniqueness_and_counts hre
  exact ⟨h.2.2 0 0 ⟨{ recognition_id := 0, endorser_id := 0 }, by decide,
    rfl, rfl⟩, h.2.1⟩

/-! ## Claim C9: leaderboard ranking -/

/-- Claim C9: for every limit in 1..100, `TopRecipients` returns at most
`limit` rows, ranked by total credits received in descending order with ties
broken by student id in ascending order (strictly, given distinct student
ids). -/
theorem C9_top_recipients_ranking (s : EngineState) (limit : Nat)
    (h1 : 1 ≤ limit) (h2 : limit ≤ 100) (hnd : s.students.Nodup) :
    (top_recipients s limit).length ≤ limit ∧
    List.Pairwise (fun a b : LeaderboardRow =>
      b.total_credits < a.total_credits ∨
        (a.total_credits = b.total_credits ∧ a.student_id < b.student_id))
      (top_recipients s limit) := by
  have hclamp : max 1 (min limit 100) = limit := by
    rw [Nat.min_eq_left h2, Nat.max_eq_right h1]
  constructor
  · unfold top_recipients
    rw [hclamp, List.length_take]
    exact Nat.min_le_left _ _
  · have hs := List.sorted_insertionSort leaderboardOrder
      (s.students.map (leaderboardRow s))
    have hperm := List.perm_insertionSort leaderboardOrder
      (s.students.map (leaderboardRow s))
    have hne0 : List.Pairwise
        (fun a b : LeaderboardRow => a.student_id ≠ b.student_id)
        (s.students.map (leaderboardRow s)) := by
      rw [List.pairwise_map]
      exact List.Pairwise.imp (fun h => h) hnd
    have hne : List.Pairwise
        (fun a b : LeaderboardRow => a.student_id ≠ b.student_id)
        (List.insertionSort leaderboardOrder
          (s.students.map (leaderboardRow s))) :=
      (hperm.pairwise_iff (fun h => Ne.symm h)).mpr hne0
    have hand := List.Pairwise.and hs hne
    have hstrict : List.Pairwise (fun a b : LeaderboardRow =>
        b.total_credits < a.total_credits ∨
          (a.total_credits = b.total_credits ∧ a.student_id < b.student_id))
        (List.insertionSort leaderboardOrder
          (s.students.map (leaderboardRow s))) := by
      refine List.Pairwise.imp ?_ hand
      intro a b hab
      obtain ⟨hlo, hne'⟩ := hab
      simp only [leaderboardOrder] at hlo
      rcases hlo with hlt | ⟨heq, hle⟩
      · exact Or.inl hlt
      · exact Or.inr ⟨heq, Nat.lt_of_le_of_ne hle hne'⟩
    unfold top_recipients
    rw [hclamp]
    exact List.Pairwise.sublist (List.take_sublist _ _) hstrict

/-- Witness for C9: the three-student demonstration state with limit 2. -/
theorem C9_witness :
    (top_recipients lbDemo 2).length ≤ 2 ∧
    List.Pairwise (fun a b : LeaderboardRow =>
      b.total_credits < a.total_credits ∨
        (a.total_credits = b.total_credits ∧ a.student_id < b.student_id))
      (top_recipients lbDemo 2) :=
  C9_top_recipients_ranking lbDemo 2 (by decide) (by decide) (by decide)
